import Mathlib

/-!
A shallow embedding of the DataTables-Gin server-side processor
(package `datatables`): column-name validation, request-parameter
parsing, query construction (search / order / paginate), struct-to-map
conversion, and the row transformation pipeline, together with theorems
checking the specification's claims about them.

The database/ORM collaborator is modelled by its observable behaviour:
the processor emits a trace of query-builder operations (`QueryOp`) and
receives the collaborator's answers (counts, fetched rows) as arguments.
Go maps are modelled as association lists (first binding wins on lookup,
assignment overwrites in place, fresh keys are appended).
-/

namespace DatatablesGin

/-! ## Values and rows (Go `map[string]interface{}`) -/

/-- A type-erased Go value (`interface{}`), restricted to the shapes the
pipeline itself produces or inspects. -/
inductive GoValue where
  | vint (n : Int)
  | vstr (s : String)
  | vbool (b : Bool)
  deriving DecidableEq, Repr

/-- One result row: a string-keyed map, as an association list. -/
abbrev Row := List (String × GoValue)

/-- Go map read `m[k]`. -/
def rowLookup : Row → String → Option GoValue
  | [], _ => none
  | (k, v) :: rest, c => if k = c then some v else rowLookup rest c

/-- Go map assignment `m[k] = v`: overwrite if present, append if fresh. -/
def rowInsert : Row → String → GoValue → Row
  | [], k, v => [(k, v)]
  | (k', v') :: rest, k, v =>
    if k' = k then (k, v) :: rest else (k', v') :: rowInsert rest k v

/-- Go `delete(m, k)`. -/
def rowErase : Row → String → Row
  | [], _ => []
  | (k', v') :: rest, k =>
    if k' = k then rowErase rest k else (k', v') :: rowErase rest k

/-! ## Request-parameter source and `ParseParams` (parser.go) -/

/-- The request's query-parameter namespace, as key/value pairs. -/
abbrev ParamSource := List (String × String)

/-- First value bound to a key, if any. -/
def srcLookup : ParamSource → String → Option String
  | [], _ => none
  | (k, v) :: rest, key => if k = key then some v else srcLookup rest key

/-- Gin's `c.DefaultQuery(key, dflt)`: the bound value when the key is
present (even if empty), the default string otherwise. -/
def defaultQuery (src : ParamSource) (key dflt : String) : String :=
  match srcLookup src key with
  | some v => v
  | none => dflt

/-- Decimal value of a digit list. -/
def digitsVal (l : List Char) : Nat :=
  l.foldl (fun n c => 10 * n + (c.toNat - 48)) 0

/-- Go `strconv.Atoi` / `strconv.ParseInt(s, 10, 64)`: an optional sign
followed by at least one ASCII digit; anything else fails. -/
def atoiOpt (s : String) : Option Int :=
  match s.data with
  | [] => none
  | '+' :: rest =>
    if !rest.isEmpty && rest.all Char.isDigit then some (digitsVal rest : Int) else none
  | '-' :: rest =>
    if !rest.isEmpty && rest.all Char.isDigit then some (-(digitsVal rest : Int)) else none
  | l => if l.all Char.isDigit then some (digitsVal l : Int) else none

/-- The Go call sites discard the error, so a failed parse leaves the
zero value. -/
def atoiOrZero (s : String) : Int :=
  (atoiOpt s).getD 0

/-- `strings.ToLower` on the ASCII data the parser compares against. -/
def goToLower (s : String) : String :=
  s.map Char.toLower

/-- `dto.Params`: the normalized request parameters. -/
structure Params where
  Draw : Int
  Start : Int
  Length : Int
  Search : String
  Order : String
  Dir : String
  deriving DecidableEq, Repr

/-- `ParseParams` (parser.go): defaults, order-key fallback, direction
clamping, and the 500-row cap (with `-1` meaning "all records"). -/
def ParseParams (src : ParamSource) : Params :=
  let draw := atoiOrZero (defaultQuery src "draw" "1")
  let start := atoiOrZero (defaultQuery src "start" "0")
  let length0 := atoiOrZero (defaultQuery src "length" "10")
  let search := defaultQuery src "search[value]" ""
  let orderColumn := defaultQuery src "order[0][column]" ""
  let order :=
    if orderColumn ≠ "" then orderColumn
    else
      let columnIndex := defaultQuery src "order[0][column]" "0"
      defaultQuery src ("columns[" ++ columnIndex ++ "][data]") ""
  let dir0 := goToLower (defaultQuery src "order[0][dir]" "asc")
  let dir := if dir0 ≠ "asc" ∧ dir0 ≠ "desc" then "asc" else dir0
  let length := if length0 > 500 ∧ length0 ≠ -1 then 500 else length0
  { Draw := draw, Start := start, Length := length,
    Search := search, Order := order, Dir := dir }

/-! ## Column-name validation (validation.go) -/

/-- The character class of the pattern `^[a-zA-Z0-9_.]+$`. -/
def isValidColumnChar (c : Char) : Bool :=
  (decide ('a' ≤ c) && decide (c ≤ 'z')) ||
  (decide ('A' ≤ c) && decide (c ≤ 'Z')) ||
  (decide ('0' ≤ c) && decide (c ≤ '9')) ||
  c == '_' || c == '.'

/-- Anchored match of `class+`: one or more characters, all in the class. -/
def matchClassPlus (p : Char → Bool) : List Char → Bool
  | [] => false
  | [c] => p c
  | c :: rest => p c && matchClassPlus p rest

/-- `isValidColumnName` (validation.go): empty names are rejected, then
the name must match `^[a-zA-Z0-9_.]+$`. -/
def isValidColumnName (name : String) : Bool :=
  if name = "" then false
  else matchClassPlus isValidColumnChar name.data

/-- `ValidationError` (errors.go). -/
structure ValidationError where
  Field : String
  Message : String
  deriving DecidableEq, Repr

/-- `validateSearchableColumns`: first invalid name aborts. -/
def validateSearchableColumns : List String → Option ValidationError
  | [] => none
  | col :: rest =>
    if isValidColumnName col then validateSearchableColumns rest
    else some { Field := col,
                Message := "searchable column name contains invalid characters" }

/-- `validateOrderableColumns`: both the key and the value of every
entry must be valid; the key is checked first. -/
def validateOrderableColumns : List (String × String) → Option ValidationError
  | [] => none
  | (key, val) :: rest =>
    if !isValidColumnName key then
      some { Field := key,
             Message := "orderable column key contains invalid characters" }
    else if !isValidColumnName val then
      some { Field := val,
             Message := "orderable column value contains invalid characters" }
    else validateOrderableColumns rest

/-- Go map read `orderable[key]` on the orderable mapping. -/
def mapLookup : List (String × String) → String → Option String
  | [], _ => none
  | (k, v) :: rest, key => if k = key then some v else mapLookup rest key

/-! ## Struct-to-map conversion (converter) -/

/-- Reflection metadata and runtime value of one struct field.
`jsonTag` is the result of `field.Tag.Get("json")`, which is the empty
string when no json tag is present. -/
structure StructField where
  name : String
  jsonTag : String
  exported : Bool
  value : GoValue
  deriving DecidableEq, Repr

/-- One struct instance, as its field list in declaration order. -/
abbrev GoStruct := List StructField

/-- `strings.Split(s, ",")[0]`: the portion of `s` before its first
comma (all of `s` when it has no comma). -/
def beforeFirstComma (s : String) : String :=
  String.mk (s.data.takeWhile (fun c => !(c == ',')))

/-- `getFieldName`: no tag falls back to the field name, a bare `-`
excludes the field, otherwise the portion before the first comma. -/
def getFieldName (field : StructField) : String :=
  if field.jsonTag = "" then field.name
  else if field.jsonTag = "-" then ""
  else beforeFirstComma field.jsonTag

/-- The field loop of `structToMap`, carrying the record built so far. -/
def structToMapGo : Row → GoStruct → Row
  | m, [] => m
  | m, field :: rest =>
    if !field.exported then structToMapGo m rest
    else
      let col := getFieldName field
      if col = "" then structToMapGo m rest
      else structToMapGo (rowInsert m col field.value) rest

/-- `structToMap`: every exported field whose computed key is non-empty
is stored in the record. -/
def structToMap (v : GoStruct) : Row :=
  structToMapGo [] v

/-- The shapes `structToMapSlice` distinguishes after one level of
pointer dereference: a slice of structs, or anything else. -/
inductive ConvInput where
  | ptrSlice (rows : List GoStruct)
  | slice (rows : List GoStruct)
  | ptrScalar
  | scalar
  deriving Repr

/-- `structToMapSlice`: converts each element in order; any non-slice
input yields nil (modelled as `none`). -/
def structToMapSlice : ConvInput → Option (List Row)
  | .ptrSlice rows => some (rows.map structToMap)
  | .slice rows => some (rows.map structToMap)
  | .ptrScalar => none
  | .scalar => none

/-! ## Options and the transformation pipeline (options.go, transformer.go) -/

/-- `Options` (options.go). Go's add/edit maps become association lists
whose entry order stands for the (unspecified) map iteration order. -/
structure Options where
  IndexColumn : String
  ResetIndex : Bool
  DefaultOrder : String
  AddColumns : List (String × (Row → GoValue))
  EditColumns : List (String × (GoValue → Row → GoValue))
  RemoveColumns : List String

/-- `NewOptions` (options.go). -/
def NewOptions : Options :=
  { IndexColumn := "DT_RowIndex", ResetIndex := false, DefaultOrder := "",
    AddColumns := [], EditColumns := [], RemoveColumns := [] }

/-- Step 1 of `applyOptions`: index injection into the clone. -/
def applyIndex (opts : Options) (start : Int) (i : Nat) (newRow : Row) : Row :=
  if opts.IndexColumn ≠ "" then
    if opts.ResetIndex then
      rowInsert newRow opts.IndexColumn (.vint ((i : Int) + 1))
    else
      rowInsert newRow opts.IndexColumn (.vint (start + (i : Int) + 1))
  else newRow

/-- Step 2: add custom columns, each computed from the original row. -/
def applyAdds (adds : List (String × (Row → GoValue))) (row newRow : Row) : Row :=
  adds.foldl (fun nr p => rowInsert nr p.1 (p.2 row)) newRow

/-- Step 3: edit existing columns; an edit runs only when its key is
present in the clone, and sees the clone's value plus the original row. -/
def applyEdits (edits : List (String × (GoValue → Row → GoValue))) (row newRow : Row) : Row :=
  edits.foldl
    (fun nr p =>
      match rowLookup nr p.1 with
      | some v => rowInsert nr p.1 (p.2 v row)
      | none => nr)
    newRow

/-- Step 4: remove unwanted columns. -/
def applyRemoves (removes : List String) (newRow : Row) : Row :=
  removes.foldl (fun nr c => rowErase nr c) newRow

/-- The per-row body of `applyOptions`' loop: clone, then index → add →
edit → remove, with `row` the original (pre-transformation) snapshot. -/
def transformRow (opts : Options) (start : Int) (i : Nat) (row : Row) : Row :=
  applyRemoves opts.RemoveColumns
    (applyEdits opts.EditColumns row
      (applyAdds opts.AddColumns row
        (applyIndex opts start i row)))

/-- The loop of `applyOptions`, carrying the running 0-based index. -/
def applyOptionsGo (opts : Options) (start : Int) : Nat → List Row → List Row
  | _, [] => []
  | i, row :: rest => transformRow opts start i row :: applyOptionsGo opts start (i + 1) rest

/-- `applyOptions` (transformer.go): nil data passes through as nil
(`none` models Go's nil slice). -/
def applyOptions (data : Option (List Row)) (opts : Options) (start : Int) :
    Option (List Row) :=
  match data with
  | none => none
  | some rows => some (applyOptionsGo opts start 0 rows)

/-! ## The processor (processor.go) -/

/-- One operation issued to the query-builder collaborator. -/
inductive QueryOp where
  | countTotal
  | countFiltered
  | whereClause (clause : String) (param : String)
  | orClause (clause : String) (param : String)
  | orderBy (clause : String)
  | offset (n : Int)
  | limit (n : Int)
  | find
  deriving DecidableEq, Repr

/-- The loop of `applySearch`: the first searchable column contributes a
`Where`, every later one an `Or`, all with the same bound pattern. -/
def applySearchGo (searchValue : String) : Nat → List String → List QueryOp
  | _, [] => []
  | i, col :: rest =>
    let searchPattern := "%" ++ searchValue ++ "%"
    (if i = 0 then
      QueryOp.whereClause ("LOWER(" ++ col ++ ") LIKE LOWER(?)") searchPattern
    else
      QueryOp.orClause ("LOWER(" ++ col ++ ") LIKE LOWER(?)") searchPattern)
      :: applySearchGo searchValue (i + 1) rest

/-- `applySearch` (processor.go). -/
def applySearch (searchable : List String) (searchValue : String) : List QueryOp :=
  applySearchGo searchValue 0 searchable

/-- `applyOrdering` (processor.go): mapped request order, else the
configured default order, else no ORDER BY at all (`none`). -/
def applyOrdering (params : Params) (orderable : List (String × String))
    (defaultOrder : String) : Option String :=
  if params.Order ≠ "" then
    match mapLookup orderable params.Order with
    | some col => some (col ++ " " ++ params.Dir)
    | none => if defaultOrder ≠ "" then some defaultOrder else none
  else if defaultOrder ≠ "" then some defaultOrder else none

/-- `dto.Datatables`. `Data` is `none` for Go's nil. -/
structure Datatables where
  Draw : Int
  RecordsTotal : Int
  RecordsFiltered : Int
  Data : Option (List Row)
  deriving Repr

/-- The zero value `dto.Datatables{}` returned alongside every error. -/
def zeroDatatables : Datatables :=
  { Draw := 0, RecordsTotal := 0, RecordsFiltered := 0, Data := none }

/-- `OfReturn` (processor.go). The database collaborator's answers are
passed in (`total`, `filtered`, `fetched` — what `Find` populates into
`dest`), and the operations issued to the query builder are returned as
a trace. A validation failure returns the error, the zero result, and
an empty trace. -/
def OfReturn (src : ParamSource) (total filtered : Int) (fetched : List GoStruct)
    (searchable : List String) (orderable : List (String × String)) (opts : Options) :
    Option ValidationError × Datatables × List QueryOp :=
  match validateSearchableColumns searchable with
  | some e => (some e, zeroDatatables, [])
  | none =>
    match validateOrderableColumns orderable with
    | some e => (some e, zeroDatatables, [])
    | none =>
      let params := ParseParams src
      let searchOps :=
        if params.Search ≠ "" ∧ searchable ≠ [] then
          applySearch searchable params.Search
        else []
      let orderOps :=
        match applyOrdering params orderable opts.DefaultOrder with
        | some clause => [QueryOp.orderBy clause]
        | none => []
      let pageOps :=
        if params.Length > 0 then
          [QueryOp.offset params.Start, QueryOp.limit params.Length]
        else []
      let rows := applyOptions (structToMapSlice (.ptrSlice fetched)) opts params.Start
      (none,
       { Draw := params.Draw, RecordsTotal := total, RecordsFiltered := filtered,
         Data := rows },
       [QueryOp.countTotal] ++ searchOps ++ [QueryOp.countFiltered] ++ orderOps
         ++ pageOps ++ [QueryOp.find])

/-- Search operations within a trace (`Where`/`Or` clauses). -/
def isSearchOp : QueryOp → Bool
  | .whereClause _ _ => true
  | .orClause _ _ => true
  | _ => false

/-- Ordering operations within a trace. -/
def isOrderOp : QueryOp → Bool
  | .orderBy _ => true
  | _ => false

/-- Pagination operations within a trace. -/
def isPageOp : QueryOp → Bool
  | .offset _ => true
  | .limit _ => true
  | _ => false

/-- The clause text handed to the builder, for clause-carrying ops. -/
def clauseText : QueryOp → Option String
  | .whereClause c _ => some c
  | .orClause c _ => some c
  | .orderBy c => some c
  | _ => none

/-- The bound parameter handed to the builder, for parameterized ops. -/
def boundParam : QueryOp → Option String
  | .whereClause _ p => some p
  | .orClause _ p => some p
  | _ => none

/-! ## Basic lemmas about rows, matching and validation -/

theorem rowLookup_rowInsert_self (r : Row) (k : String) (v : GoValue) :
    rowLookup (rowInsert r k v) k = some v := by
  induction r with
  | nil => simp [rowInsert, rowLookup]
  | cons p rest ih =>
    obtain ⟨k', v'⟩ := p
    by_cases h : k' = k
    · simp [rowInsert, h, rowLookup]
    · simp [rowInsert, h, rowLookup, ih]

theorem rowLookup_rowInsert_ne (r : Row) (k c : String) (v : GoValue) (h : c ≠ k) :
    rowLookup (rowInsert r k v) c = rowLookup r c := by
  have hkc : ¬k = c := fun hh => h hh.symm
  induction r with
  | nil => simp [rowInsert, rowLookup, hkc]
  | cons p rest ih =>
    obtain ⟨k', v'⟩ := p
    by_cases hk : k' = k
    · subst hk
      simp [rowInsert, rowLookup, hkc]
    · simp [rowInsert, hk, rowLookup, ih]

theorem rowLookup_rowErase_self (r : Row) (k : String) :
    rowLookup (rowErase r k) k = none := by
  induction r with
  | nil => simp [rowErase, rowLookup]
  | cons p rest ih =>
    obtain ⟨k', v'⟩ := p
    by_cases h : k' = k
    · simp [rowErase, h, ih]
    · simp [rowErase, h, rowLookup, ih]

theorem rowLookup_rowErase_ne (r : Row) (k c : String) (h : c ≠ k) :
    rowLookup (rowErase r k) c = rowLookup r c := by
  have hkc : ¬k = c := fun hh => h hh.symm
  induction r with
  | nil => simp [rowErase]
  | cons p rest ih =>
    obtain ⟨k', v'⟩ := p
    by_cases hk : k' = k
    · subst hk
      simp [rowErase, rowLookup, ih, hkc]
    · simp [rowErase, hk, rowLookup, ih]

theorem matchClassPlus_eq_true (p : Char → Bool) (l : List Char) :
    matchClassPlus p l = true ↔ l ≠ [] ∧ ∀ c ∈ l, p c = true := by
  induction l with
  | nil => simp [matchClassPlus]
  | cons c rest ih =>
    cases rest with
    | nil => simp [matchClassPlus]
    | cons d rest' =>
      have hstep : matchClassPlus p (c :: d :: rest') =
          (p c && matchClassPlus p (d :: rest')) := rfl
      rw [hstep, Bool.and_eq_true, ih]
      constructor
      · rintro ⟨hc, -, hall⟩
        refine ⟨by simp, ?_⟩
        intro x hx
        rcases List.mem_cons.mp hx with rfl | hx'
        · exact hc
        · exact hall x hx'
      · rintro ⟨-, hall⟩
        refine ⟨hall c (by simp), by simp, ?_⟩
        intro x hx
        exact hall x (List.mem_cons_of_mem _ hx)

theorem validateSearchableColumns_eq_none (cols : List String) :
    validateSearchableColumns cols = none ↔
      ∀ col ∈ cols, isValidColumnName col = true := by
  induction cols with
  | nil => simp [validateSearchableColumns]
  | cons col rest ih =>
    by_cases h : isValidColumnName col = true
    · simp [validateSearchableColumns, h, ih]
    · simp [validateSearchableColumns, h]

theorem validateSearchableColumns_eq_some (cols : List String) (e : ValidationError)
    (h : validateSearchableColumns cols = some e) :
    e.Field ∈ cols ∧ isValidColumnName e.Field = false := by
  induction cols with
  | nil => simp [validateSearchableColumns] at h
  | cons col rest ih =>
    by_cases hv : isValidColumnName col = true
    · simp only [validateSearchableColumns, if_pos hv] at h
      obtain ⟨hmem, hfalse⟩ := ih h
      exact ⟨by simp [hmem], hfalse⟩
    · simp only [validateSearchableColumns, if_neg hv] at h
      obtain rfl : ValidationError.mk col
          "searchable column name contains invalid characters" = e := by
        simpa using h
      exact ⟨by simp, by simpa using hv⟩

theorem validateOrderableColumns_eq_none (l : List (String × String)) :
    validateOrderableColumns l = none ↔
      ∀ p ∈ l, isValidColumnName p.1 = true ∧ isValidColumnName p.2 = true := by
  induction l with
  | nil => simp [validateOrderableColumns]
  | cons p rest ih =>
    obtain ⟨key, val⟩ := p
    by_cases hk : isValidColumnName key = true
    · by_cases hv : isValidColumnName val = true
      · simp [validateOrderableColumns, hk, hv, ih]
      · simp [validateOrderableColumns, hk, hv]
    · simp [validateOrderableColumns, hk]

theorem validateOrderableColumns_eq_some (l : List (String × String))
    (e : ValidationError) (h : validateOrderableColumns l = some e) :
    (e.Field ∈ l.map Prod.fst ∨ e.Field ∈ l.map Prod.snd) ∧
      isValidColumnName e.Field = false := by
  induction l with
  | nil => simp [validateOrderableColumns] at h
  | cons p rest ih =>
    obtain ⟨key, val⟩ := p
    by_cases hk : isValidColumnName key = true
    · by_cases hv : isValidColumnName val = true
      · simp only [validateOrderableColumns, hk, hv, Bool.not_true,
          Bool.false_eq_true, if_false] at h
        obtain ⟨hmem, hfalse⟩ := ih h
        refine ⟨?_, hfalse⟩
        rcases hmem with hm | hm
        · exact Or.inl (by simp; right; simpa using hm)
        · exact Or.inr (by simp; right; simpa using hm)
      · simp only [validateOrderableColumns, hk, hv, Bool.not_true, Bool.not_false,
          Bool.false_eq_true, if_false, if_true, eq_false_of_ne_true] at h
        obtain rfl : ValidationError.mk val
            "orderable column value contains invalid characters" = e := by
          simpa using h
        exact ⟨Or.inr (by simp), by simpa using hv⟩
    · simp only [validateOrderableColumns, hk, Bool.not_true, Bool.false_eq_true,
        if_false, if_true, eq_false_of_ne_true] at h
      obtain rfl : ValidationError.mk key
          "orderable column key contains invalid characters" = e := by
        simpa using h
      exact ⟨Or.inl (by simp), by simpa using hk⟩

/-! ## Lemmas about the transformation pipeline -/

theorem applyAdds_cons (p : String × (Row → GoValue))
    (adds : List (String × (Row → GoValue))) (row r : Row) :
    applyAdds (p :: adds) row r = applyAdds adds row (rowInsert r p.1 (p.2 row)) := rfl

theorem applyEdits_cons (p : String × (GoValue → Row → GoValue))
    (edits : List (String × (GoValue → Row → GoValue))) (row r : Row) :
    applyEdits (p :: edits) row r =
      applyEdits edits row
        (match rowLookup r p.1 with
         | some v => rowInsert r p.1 (p.2 v row)
         | none => r) := rfl

theorem applyRemoves_cons (k : String) (removes : List String) (r : Row) :
    applyRemoves (k :: removes) r = applyRemoves removes (rowErase r k) := rfl

theorem rowLookup_applyAdds_not_mem (adds : List (String × (Row → GoValue)))
    (row : Row) (c : String) (h : c ∉ adds.map Prod.fst) :
    ∀ r : Row, rowLookup (applyAdds adds row r) c = rowLookup r c := by
  induction adds with
  | nil => intro r; rfl
  | cons p rest ih =>
    intro r
    have hc : c ∉ rest.map Prod.fst := fun hm => h (by simp [hm])
    have hp : c ≠ p.1 := fun hm => h (by simp [hm])
    rw [applyAdds_cons, ih hc, rowLookup_rowInsert_ne _ _ _ _ hp]

theorem rowLookup_applyEdits_not_mem (edits : List (String × (GoValue → Row → GoValue)))
    (row : Row) (c : String) (h : c ∉ edits.map Prod.fst) :
    ∀ r : Row, rowLookup (applyEdits edits row r) c = rowLookup r c := by
  induction edits with
  | nil => intro r; rfl
  | cons p rest ih =>
    intro r
    have hmapcons : (p :: rest).map Prod.fst = p.1 :: rest.map Prod.fst := rfl
    have hc : c ∉ rest.map Prod.fst := fun hm =>
      h (by rw [hmapcons]; exact List.mem_cons_of_mem _ hm)
    have hp : c ≠ p.1 := fun hm =>
      h (by rw [hmapcons, hm]; exact List.mem_cons_self _ _)
    rw [applyEdits_cons, ih hc]
    cases hl : rowLookup r p.1 with
    | none => rfl
    | some v => exact rowLookup_rowInsert_ne _ _ _ _ hp

theorem rowLookup_applyEdits_mem (edits : List (String × (GoValue → Row → GoValue)))
    (row : Row) (c : String) (f : GoValue → Row → GoValue)
    (hnd : (edits.map Prod.fst).Nodup) (hmem : (c, f) ∈ edits) :
    ∀ r : Row, rowLookup (applyEdits edits row r) c =
      (rowLookup r c).map (fun v => f v row) := by
  induction edits with
  | nil => simp at hmem
  | cons p rest ih =>
    intro r
    have hnd' : (rest.map Prod.fst).Nodup := (List.nodup_cons.mp hnd).2
    have hhead : p.1 ∉ rest.map Prod.fst := (List.nodup_cons.mp hnd).1
    rcases List.mem_cons.mp hmem with heq | hmem'
    · obtain ⟨rfl, rfl⟩ : p.1 = c ∧ p.2 = f := by
        constructor
        · exact congrArg Prod.fst heq.symm
        · exact congrArg Prod.snd heq.symm
      rw [applyEdits_cons,
        rowLookup_applyEdits_not_mem rest row p.1 hhead]
      cases hl : rowLookup r p.1 with
      | none => simp [hl]
      | some v => simp [hl, rowLookup_rowInsert_self]
    · have hcrest : c ∈ rest.map Prod.fst :=
        List.mem_map.mpr ⟨(c, f), hmem', rfl⟩
      have hne : c ≠ p.1 := fun hh => hhead (hh ▸ hcrest)
      rw [applyEdits_cons, ih hnd' hmem']
      cases hl : rowLookup r p.1 with
      | none => rfl
      | some v => rw [rowLookup_rowInsert_ne _ _ _ _ hne]

theorem rowLookup_applyRemoves (removes : List String) (c : String) :
    ∀ r : Row, rowLookup (applyRemoves removes r) c =
      if c ∈ removes then none else rowLookup r c := by
  induction removes with
  | nil => intro r; simp [applyRemoves]
  | cons k rest ih =>
    intro r
    rw [applyRemoves_cons, ih]
    by_cases hck : c = k
    · subst hck
      by_cases hcr : c ∈ rest
      · simp [hcr]
      · simp [hcr, rowLookup_rowErase_self]
    · by_cases hcr : c ∈ rest
      · simp [hcr, hck]
      · simp [hcr, hck, rowLookup_rowErase_ne _ _ _ hck]

theorem applyOptionsGo_getElem (opts : Options) (start : Int) (rows : List Row) :
    ∀ j i : Nat, (applyOptionsGo opts start j rows)[i]? =
      (rows[i]?).map (fun row => transformRow opts start (j + i) row) := by
  induction rows with
  | nil => intro j i; simp [applyOptionsGo]
  | cons row rest ih =>
    intro j i
    cases i with
    | zero => simp [applyOptionsGo]
    | succ i' =>
      have := ih (j + 1) i'
      simp only [applyOptionsGo, List.getElem?_cons_succ, this]
      have harith : j + 1 + i' = j + (i' + 1) := by omega
      rw [harith]

/-! ## Lemmas about the search clause construction -/

theorem applySearchGo_map_clauseText (v : String) (cols : List String) :
    ∀ i : Nat, (applySearchGo v i cols).map clauseText =
      cols.map (fun c => some ("LOWER(" ++ c ++ ") LIKE LOWER(?)")) := by
  induction cols with
  | nil => intro i; rfl
  | cons c rest ih =>
    intro i
    by_cases h : i = 0
    · simp [applySearchGo, h, clauseText, ih]
    · simp [applySearchGo, h, clauseText, ih]

theorem applySearchGo_boundParam (v : String) (cols : List String) :
    ∀ i : Nat, ∀ op ∈ applySearchGo v i cols,
      boundParam op = some ("%" ++ v ++ "%") := by
  induction cols with
  | nil => intro i op hop; simp [applySearchGo] at hop
  | cons c rest ih =>
    intro i op hop
    by_cases h : i = 0 <;>
      [skip; skip] <;>
      · simp only [applySearchGo, h, if_true, if_false, reduceIte, List.mem_cons] at hop
        rcases hop with rfl | hop'
        · rfl
        · exact ih _ op hop'

theorem applySearchGo_isSearchOp (v : String) (cols : List String) :
    ∀ i : Nat, ∀ op ∈ applySearchGo v i cols, isSearchOp op = true := by
  induction cols with
  | nil => intro i op hop; simp [applySearchGo] at hop
  | cons c rest ih =>
    intro i op hop
    by_cases h : i = 0 <;>
      · simp only [applySearchGo, h, if_true, if_false, reduceIte, List.mem_cons] at hop
        rcases hop with rfl | hop'
        · rfl
        · exact ih _ op hop'

theorem applySearchGo_succ (v : String) (cols : List String) :
    ∀ i : Nat, applySearchGo v (i + 1) cols =
      cols.map (fun c =>
        QueryOp.orClause ("LOWER(" ++ c ++ ") LIKE LOWER(?)") ("%" ++ v ++ "%")) := by
  induction cols with
  | nil => intro i; rfl
  | cons c rest ih =>
    intro i
    simp only [applySearchGo, Nat.succ_ne_zero, if_false, reduceIte, List.map_cons]
    exact congrArg _ (ih (i + 1))

theorem applySearch_eq (cols : List String) (v : String) :
    applySearch cols v =
      match cols with
      | [] => []
      | c :: rest =>
        QueryOp.whereClause ("LOWER(" ++ c ++ ") LIKE LOWER(?)") ("%" ++ v ++ "%")
          :: rest.map (fun c =>
            QueryOp.orClause ("LOWER(" ++ c ++ ") LIKE LOWER(?)") ("%" ++ v ++ "%")) := by
  cases cols with
  | nil => rfl
  | cons c rest =>
    simp only [applySearch, applySearchGo, if_true, reduceIte]
    exact congrArg _ (applySearchGo_succ v rest 0)

/-! ## Lemmas about the processor's operation trace -/

theorem ofReturn_search_err (src : ParamSource) (total filtered : Int)
    (fetched : List GoStruct) (searchable : List String)
    (orderable : List (String × String)) (opts : Options) (e : ValidationError)
    (h : validateSearchableColumns searchable = some e) :
    OfReturn src total filtered fetched searchable orderable opts =
      (some e, zeroDatatables, []) := by
  simp [OfReturn, h]

theorem ofReturn_order_err (src : ParamSource) (total filtered : Int)
    (fetched : List GoStruct) (searchable : List String)
    (orderable : List (String × String)) (opts : Options) (e : ValidationError)
    (hs : validateSearchableColumns searchable = none)
    (ho : validateOrderableColumns orderable = some e) :
    OfReturn src total filtered fetched searchable orderable opts =
      (some e, zeroDatatables, []) := by
  simp [OfReturn, hs, ho]

theorem ofReturn_ok_trace (src : ParamSource) (total filtered : Int)
    (fetched : List GoStruct) (searchable : List String)
    (orderable : List (String × String)) (opts : Options)
    (hs : validateSearchableColumns searchable = none)
    (ho : validateOrderableColumns orderable = none) :
    (OfReturn src total filtered fetched searchable orderable opts).2.2 =
      [QueryOp.countTotal] ++
        (if (ParseParams src).Search ≠ "" ∧ searchable ≠ [] then
           applySearch searchable (ParseParams src).Search
         else []) ++
        [QueryOp.countFiltered] ++
        (match applyOrdering (ParseParams src) orderable opts.DefaultOrder with
         | some clause => [QueryOp.orderBy clause]
         | none => []) ++
        (if (ParseParams src).Length > 0 then
           [QueryOp.offset (ParseParams src).Start,
            QueryOp.limit (ParseParams src).Length]
         else []) ++
        [QueryOp.find] := by
  simp [OfReturn, hs, ho]

theorem filter_applySearch_search (cols : List String) (v : String) :
    (applySearch cols v).filter isSearchOp = applySearch cols v :=
  List.filter_eq_self.mpr (applySearchGo_isSearchOp v cols 0)

theorem filter_applySearch_order (cols : List String) (v : String) :
    (applySearch cols v).filter isOrderOp = [] := by
  rw [List.filter_eq_nil_iff]
  intro op hop
  have := applySearchGo_isSearchOp v cols 0 op hop
  cases op <;> simp_all [isSearchOp, isOrderOp]

theorem filter_applySearch_page (cols : List String) (v : String) :
    (applySearch cols v).filter isPageOp = [] := by
  rw [List.filter_eq_nil_iff]
  intro op hop
  have := applySearchGo_isSearchOp v cols 0 op hop
  cases op <;> simp_all [isSearchOp, isPageOp]

theorem ofReturn_filter_search (src : ParamSource) (total filtered : Int)
    (fetched : List GoStruct) (searchable : List String)
    (orderable : List (String × String)) (opts : Options)
    (hs : validateSearchableColumns searchable = none)
    (ho : validateOrderableColumns orderable = none) :
    ((OfReturn src total filtered fetched searchable orderable opts).2.2).filter isSearchOp =
      if (ParseParams src).Search ≠ "" ∧ searchable ≠ [] then
        applySearch searchable (ParseParams src).Search
      else [] := by
  rw [ofReturn_ok_trace src total filtered fetched searchable orderable opts hs ho]
  simp only [List.filter_append]
  by_cases hcond : (ParseParams src).Search ≠ "" ∧ searchable ≠ []
  · rw [if_pos hcond, filter_applySearch_search]
    cases happ : applyOrdering (ParseParams src) orderable opts.DefaultOrder <;>
      by_cases hlen : (ParseParams src).Length > 0 <;>
        simp [happ, hlen, isSearchOp, List.filter]
  · rw [if_neg hcond]
    cases happ : applyOrdering (ParseParams src) orderable opts.DefaultOrder <;>
      by_cases hlen : (ParseParams src).Length > 0 <;>
        simp [happ, hlen, isSearchOp, List.filter]

theorem ofReturn_filter_order (src : ParamSource) (total filtered : Int)
    (fetched : List GoStruct) (searchable : List String)
    (orderable : List (String × String)) (opts : Options)
    (hs : validateSearchableColumns searchable = none)
    (ho : validateOrderableColumns orderable = none) :
    ((OfReturn src total filtered fetched searchable orderable opts).2.2).filter isOrderOp =
      match applyOrdering (ParseParams src) orderable opts.DefaultOrder with
      | some clause => [QueryOp.orderBy clause]
      | none => [] := by
  rw [ofReturn_ok_trace src total filtered fetched searchable orderable opts hs ho]
  simp only [List.filter_append]
  have hsearch : (if (ParseParams src).Search ≠ "" ∧ searchable ≠ [] then
      applySearch searchable (ParseParams src).Search else []).filter isOrderOp = [] := by
    by_cases hcond : (ParseParams src).Search ≠ "" ∧ searchable ≠ []
    · rw [if_pos hcond, filter_applySearch_order]
    · rw [if_neg hcond]; rfl
  rw [hsearch]
  cases happ : applyOrdering (ParseParams src) orderable opts.DefaultOrder <;>
    by_cases hlen : (ParseParams src).Length > 0 <;>
      simp [happ, hlen, isOrderOp, List.filter]

theorem ofReturn_filter_page (src : ParamSource) (total filtered : Int)
    (fetched : List GoStruct) (searchable : List String)
    (orderable : List (String × String)) (opts : Options)
    (hs : validateSearchableColumns searchable = none)
    (ho : validateOrderableColumns orderable = none) :
    ((OfReturn src total filtered fetched searchable orderable opts).2.2).filter isPageOp =
      if (ParseParams src).Length > 0 then
        [QueryOp.offset (ParseParams src).Start, QueryOp.limit (ParseParams src).Length]
      else [] := by
  rw [ofReturn_ok_trace src total filtered fetched searchable orderable opts hs ho]
  simp only [List.filter_append]
  have hsearch : (if (ParseParams src).Search ≠ "" ∧ searchable ≠ [] then
      applySearch searchable (ParseParams src).Search else []).filter isPageOp = [] := by
    by_cases hcond : (ParseParams src).Search ≠ "" ∧ searchable ≠ []
    · rw [if_pos hcond, filter_applySearch_page]
    · rw [if_neg hcond]; rfl
  rw [hsearch]
  cases happ : applyOrdering (ParseParams src) orderable opts.DefaultOrder <;>
    by_cases hlen : (ParseParams src).Length > 0 <;>
      simp [happ, hlen, isPageOp, List.filter]

theorem ofReturn_find_mem (src : ParamSource) (total filtered : Int)
    (fetched : List GoStruct) (searchable : List String)
    (orderable : List (String × String)) (opts : Options)
    (hs : validateSearchableColumns searchable = none)
    (ho : validateOrderableColumns orderable = none) :
    QueryOp.find ∈ (OfReturn src total filtered fetched searchable orderable opts).2.2 := by
  rw [ofReturn_ok_trace src total filtered fetched searchable orderable opts hs ho]
  simp

/-! ## Lemmas about the struct-to-map converter -/

/-- Spec-side key function, written after the (amended) claim's words:
an unexported field never contributes; with no tag the key is the
declared field name; a field whose tag is exactly `-`, or whose portion
before the first comma is empty, is omitted; otherwise the key is the
portion of the tag before the first comma. -/
def fieldKeySpec (f : StructField) : Option String :=
  if !f.exported then none
  else if f.jsonTag = "" then some f.name
  else if f.jsonTag = "-" then none
  else if beforeFirstComma f.jsonTag = "" then none
  else some (beforeFirstComma f.jsonTag)

theorem fieldKeySpec_eq_code (f : StructField) (hf : f.name ≠ "") :
    fieldKeySpec f =
      if f.exported = true ∧ getFieldName f ≠ "" then some (getFieldName f)
      else none := by
  by_cases hexp : f.exported = true
  · by_cases htag : f.jsonTag = ""
    · simp [fieldKeySpec, getFieldName, hexp, htag, hf]
    · by_cases hdash : f.jsonTag = "-"
      · simp [fieldKeySpec, getFieldName, hexp, htag, hdash]
      · by_cases hkey : beforeFirstComma f.jsonTag = ""
        · simp [fieldKeySpec, getFieldName, hexp, htag, hdash, hkey]
        · simp [fieldKeySpec, getFieldName, hexp, htag, hdash, hkey]
  · have hexp' : f.exported = false := by
      cases hb : f.exported
      · rfl
      · exact absurd hb hexp
    simp [fieldKeySpec, hexp']

theorem rowInsert_append (m : Row) (k : String) (v : GoValue)
    (h : k ∉ m.map Prod.fst) :
    rowInsert m k v = m ++ [(k, v)] := by
  induction m with
  | nil => rfl
  | cons p rest ih =>
    have hk : ¬p.1 = k := fun hh => h (by simp [hh])
    have hrest : k ∉ rest.map Prod.fst := fun hm => h (by simp [hm])
    obtain ⟨k', v'⟩ := p
    simp only [rowInsert, if_neg hk, List.cons_append, List.cons.injEq, true_and]
    exact ih hrest

theorem structToMapGo_eq (fields : GoStruct) :
    ∀ m : Row,
      (∀ f ∈ fields, f.name ≠ "") →
      (fields.filterMap fieldKeySpec).Nodup →
      (∀ k ∈ fields.filterMap fieldKeySpec, k ∉ m.map Prod.fst) →
      structToMapGo m fields =
        m ++ fields.filterMap (fun f => (fieldKeySpec f).map (fun k => (k, f.value))) := by
  induction fields with
  | nil => intro m _ _ _; simp [structToMapGo]
  | cons f rest ih =>
    intro m hname hnd hdisj
    have hfname : f.name ≠ "" := hname f (List.mem_cons_self _ _)
    have hrestname : ∀ g ∈ rest, g.name ≠ "" :=
      fun g hg => hname g (List.mem_cons_of_mem _ hg)
    cases hspec : fieldKeySpec f with
    | none =>
      have hskip : f.exported = false ∨ getFieldName f = "" := by
        have := fieldKeySpec_eq_code f hfname
        rw [hspec] at this
        by_cases hexp : f.exported = true
        · by_cases hcol : getFieldName f = ""
          · exact Or.inr hcol
          · rw [if_pos ⟨hexp, hcol⟩] at this
            exact absurd this.symm (Option.some_ne_none _)
        · left
          cases hb : f.exported
          · rfl
          · exact absurd hb hexp
      have hstep : structToMapGo m (f :: rest) = structToMapGo m rest := by
        rcases hskip with hexp | hcol
        · simp [structToMapGo, hexp]
        · by_cases hexp : f.exported
          · simp [structToMapGo, hexp, hcol]
          · simp [structToMapGo, hexp]
      rw [hstep, ih m hrestname
        (by simpa [List.filterMap_cons, hspec] using hnd)
        (by intro k hk; exact hdisj k (by simpa [List.filterMap_cons, hspec] using hk))]
      simp [List.filterMap_cons, hspec]
    | some k =>
      have hcode : f.exported = true ∧ getFieldName f ≠ "" ∧ getFieldName f = k := by
        have := fieldKeySpec_eq_code f hfname
        rw [hspec] at this
        by_cases hcond : f.exported = true ∧ getFieldName f ≠ ""
        · rw [if_pos hcond] at this
          exact ⟨hcond.1, hcond.2, (Option.some.inj this).symm⟩
        · rw [if_neg hcond] at this
          exact absurd this (Option.some_ne_none _)
      obtain ⟨hexp, hcol, hkey⟩ := hcode
      have hkeys : (f :: rest).filterMap fieldKeySpec = k :: rest.filterMap fieldKeySpec := by
        simp [List.filterMap_cons, hspec]
      have hknotrest : k ∉ rest.filterMap fieldKeySpec := by
        rw [hkeys] at hnd
        exact (List.nodup_cons.mp hnd).1
      have hkm : k ∉ m.map Prod.fst := hdisj k (by rw [hkeys]; exact List.mem_cons_self _ _)
      have hstep : structToMapGo m (f :: rest) =
          structToMapGo (rowInsert m (getFieldName f) f.value) rest := by
        simp [structToMapGo, hexp, hcol]
      rw [hstep, hkey, rowInsert_append m k f.value hkm]
      rw [ih (m ++ [(k, f.value)]) hrestname (by rw [hkeys] at hnd; exact (List.nodup_cons.mp hnd).2) ?hdisj]
      · simp [List.filterMap_cons, hspec, List.append_assoc]
      case hdisj =>
        intro k' hk'
        have hk'm : k' ∉ m.map Prod.fst :=
          hdisj k' (by rw [hkeys]; exact List.mem_cons_of_mem _ hk')
        have hk'k : k' ≠ k := fun hh => hknotrest (hh ▸ hk')
        simp [hk'm, hk'k]

theorem structToMap_eq_spec (fields : GoStruct)
    (hname : ∀ f ∈ fields, f.name ≠ "")
    (hnd : (fields.filterMap fieldKeySpec).Nodup) :
    structToMap fields =
      fields.filterMap (fun f => (fieldKeySpec f).map (fun k => (k, f.value))) := by
  simpa [structToMap] using structToMapGo_eq fields [] hname hnd (by simp)

/-! ## Claim theorems -/

theorem isValidColumnChar_iff (c : Char) :
    isValidColumnChar c = true ↔
      (('a' ≤ c ∧ c ≤ 'z') ∨ ('A' ≤ c ∧ c ≤ 'Z') ∨ ('0' ≤ c ∧ c ≤ '9') ∨
        c = '_' ∨ c = '.') := by
  simp [isValidColumnChar, Bool.or_eq_true, Bool.and_eq_true, decide_eq_true_eq,
    beq_iff_eq, or_assoc]

/-- Claim C1: `isValidColumnName s` is true iff `s` is non-empty and every
character of `s` is an ASCII letter, digit, underscore, or dot; in
particular it is false for the empty string and for strings containing a
space, double quote, semicolon, or dash, and true for a qualified
`table.column` name. -/
theorem claim_C1_valid_column_name (s : String) :
    (isValidColumnName s = true ↔
      s ≠ "" ∧ ∀ c ∈ s.data,
        (('a' ≤ c ∧ c ≤ 'z') ∨ ('A' ≤ c ∧ c ≤ 'Z') ∨ ('0' ≤ c ∧ c ≤ '9') ∨
          c = '_' ∨ c = '.')) ∧
    isValidColumnName "" = false ∧
    isValidColumnName "a b" = false ∧
    isValidColumnName "name\"" = false ∧
    isValidColumnName "a;b" = false ∧
    isValidColumnName "a-b" = false ∧
    isValidColumnName "users.created_at" = true := by
  refine ⟨?_, by decide, by decide, by decide, by decide, by decide, by decide⟩
  by_cases hse : s = ""
  · subst hse
    simp [isValidColumnName]
  · have hdata : s.data ≠ [] := fun h => hse (String.ext h)
    rw [isValidColumnName, if_neg hse, matchClassPlus_eq_true]
    simp only [isValidColumnChar_iff]
    exact ⟨fun ⟨_, h⟩ => ⟨hse, h⟩, fun ⟨_, h⟩ => ⟨hdata, h⟩⟩

/-- Claim C4: ordering follows a three-way fallback chain — a non-empty
order key present in the orderable mapping yields an ORDER BY on the
mapped column with the parsed direction; otherwise a non-empty
configured default-order clause is applied verbatim; otherwise no
ORDER BY clause is emitted at all (and the processor's trace contains
exactly the ordering operation `applyOrdering` dictates). -/
theorem claim_C4_ordering_fallback (src : ParamSource) (total filtered : Int)
    (fetched : List GoStruct) (searchable : List String)
    (orderable : List (String × String)) (opts : Options)
    (hs : validateSearchableColumns searchable = none)
    (ho : validateOrderableColumns orderable = none) :
    (∀ params : Params, ∀ col : String,
        params.Order ≠ "" → mapLookup orderable params.Order = some col →
        applyOrdering params orderable opts.DefaultOrder =
          some (col ++ " " ++ params.Dir)) ∧
    (∀ params : Params,
        (params.Order = "" ∨ mapLookup orderable params.Order = none) →
        opts.DefaultOrder ≠ "" →
        applyOrdering params orderable opts.DefaultOrder = some opts.DefaultOrder) ∧
    (∀ params : Params,
        (params.Order = "" ∨ mapLookup orderable params.Order = none) →
        opts.DefaultOrder = "" →
        applyOrdering params orderable opts.DefaultOrder = none) ∧
    ((OfReturn src total filtered fetched searchable orderable opts).2.2).filter isOrderOp =
      (match applyOrdering (ParseParams src) orderable opts.DefaultOrder with
       | some clause => [QueryOp.orderBy clause]
       | none => []) := by
  refine ⟨?_, ?_, ?_, ofReturn_filter_order src total filtered fetched searchable orderable opts hs ho⟩
  · intro params col h1 h2
    simp [applyOrdering, h1, h2]
  · intro params h hd
    rcases h with h | h
    · simp [applyOrdering, h, hd]
    · by_cases horder : params.Order = ""
      · simp [applyOrdering, horder, hd]
      · simp [applyOrdering, horder, h, hd]
  · intro params h hd
    rcases h with h | h
    · simp [applyOrdering, h, hd]
    · by_cases horder : params.Order = ""
      · simp [applyOrdering, horder, hd]
      · simp [applyOrdering, horder, h, hd]

theorem claim_C4_witness :
    validateSearchableColumns ["name"] = none ∧
    validateOrderableColumns [("name", "users.name")] = none ∧
    applyOrdering (Params.mk 1 0 10 "" "name" "desc") [("name", "users.name")] "" =
      some "users.name desc" ∧
    applyOrdering (Params.mk 1 0 10 "" "" "asc") [("name", "users.name")] "id DESC" =
      some "id DESC" ∧
    applyOrdering (Params.mk 1 0 10 "" "missing" "asc") [("name", "users.name")] "" =
      none := by
  have h := claim_C4_ordering_fallback [] 0 0 [] ["name"] [("name", "users.name")]
    { NewOptions with DefaultOrder := "" } (by decide) (by decide)
  refine ⟨by decide, by decide, ?_, ?_, ?_⟩
  · exact h.1 (Params.mk 1 0 10 "" "name" "desc") "users.name" (by decide) (by decide)
  · have h2 := claim_C4_ordering_fallback [] 0 0 [] ["name"] [("name", "users.name")]
      { NewOptions with DefaultOrder := "id DESC" } (by decide) (by decide)
    exact h2.2.1 (Params.mk 1 0 10 "" "" "asc") (Or.inl rfl) (by decide)
  · exact h.2.2.1 (Params.mk 1 0 10 "" "missing" "asc") (Or.inr (by decide)) rfl

/-- Claim C7: with an index column configured (and not otherwise touched
by add/edit/remove), the row at 0-based position `i` receives index
value `i+1` when reset-mode is enabled, regardless of the page-start
offset, and `start + i + 1` when it is disabled. -/
theorem claim_C7_index_injection (opts : Options) (start : Int) (i : Nat) (row : Row)
    (hcol : opts.IndexColumn ≠ "")
    (hadd : opts.IndexColumn ∉ opts.AddColumns.map Prod.fst)
    (hedit : opts.IndexColumn ∉ opts.EditColumns.map Prod.fst)
    (hrem : opts.IndexColumn ∉ opts.RemoveColumns) :
    rowLookup (transformRow opts start i row) opts.IndexColumn =
      some (.vint (if opts.ResetIndex then (i : Int) + 1 else start + (i : Int) + 1)) := by
  unfold transformRow
  rw [rowLookup_applyRemoves, if_neg hrem,
    rowLookup_applyEdits_not_mem _ _ _ hedit,
    rowLookup_applyAdds_not_mem _ _ _ hadd]
  unfold applyIndex
  rw [if_pos hcol]
  by_cases hr : opts.ResetIndex <;> simp [hr, rowLookup_rowInsert_self]

theorem claim_C7_witness :
    rowLookup (transformRow NewOptions 10 0 [("id", .vint 1)]) "DT_RowIndex" =
      some (.vint 11) ∧
    rowLookup (transformRow NewOptions 10 1 [("id", .vint 2)]) "DT_RowIndex" =
      some (.vint 12) ∧
    rowLookup (transformRow { NewOptions with ResetIndex := true } 50 0
        [("id", .vint 1)]) "DT_RowIndex" = some (.vint 1) ∧
    rowLookup (transformRow { NewOptions with ResetIndex := true } 50 1
        [("id", .vint 2)]) "DT_RowIndex" = some (.vint 2) := by
  refine ⟨?_, ?_, ?_, ?_⟩
  · simpa using claim_C7_index_injection NewOptions 10 0 [("id", .vint 1)]
      (by decide) (by simp [NewOptions]) (by simp [NewOptions]) (by simp [NewOptions])
  · simpa using claim_C7_index_injection NewOptions 10 1 [("id", .vint 2)]
      (by decide) (by simp [NewOptions]) (by simp [NewOptions]) (by simp [NewOptions])
  · simpa using claim_C7_index_injection { NewOptions with ResetIndex := true } 50 0
      [("id", .vint 1)]
      (by decide) (by simp [NewOptions]) (by simp [NewOptions]) (by simp [NewOptions])
  · simpa using claim_C7_index_injection { NewOptions with ResetIndex := true } 50 1
      [("id", .vint 2)]
      (by decide) (by simp [NewOptions]) (by simp [NewOptions]) (by simp [NewOptions])

/-- Claim C9, as amended: the default strings (`draw`=1, `start`=0,
`length`=10) are substituted only when the parameter is ABSENT and are
then parsed; a parameter that is present but unparseable parses to the
zero value, not to the field's default. -/
theorem claim_C9_default_vs_unparseable (src : ParamSource) :
    (srcLookup src "draw" = none → (ParseParams src).Draw = 1) ∧
    (srcLookup src "start" = none → (ParseParams src).Start = 0) ∧
    (srcLookup src "length" = none → (ParseParams src).Length = 10) ∧
    (∀ v : String, srcLookup src "draw" = some v → atoiOpt v = none →
        (ParseParams src).Draw = 0) ∧
    (∀ v : String, srcLookup src "start" = some v → atoiOpt v = none →
        (ParseParams src).Start = 0) ∧
    (∀ v : String, srcLookup src "length" = some v → atoiOpt v = none →
        (ParseParams src).Length = 0) := by
  refine ⟨?_, ?_, ?_, ?_, ?_, ?_⟩
  · intro h
    simp [ParseParams, defaultQuery, h, atoiOrZero]
    decide
  · intro h
    simp [ParseParams, defaultQuery, h, atoiOrZero]
    decide
  · intro h
    simp [ParseParams, defaultQuery, h, atoiOrZero]
    decide
  · intro v h hv
    simp [ParseParams, defaultQuery, h, atoiOrZero, hv]
  · intro v h hv
    simp [ParseParams, defaultQuery, h, atoiOrZero, hv]
  · intro v h hv
    simp [ParseParams, defaultQuery, h, atoiOrZero, hv]

theorem claim_C9_witness :
    (srcLookup [] "draw" = none ∧ (ParseParams []).Draw = 1) ∧
    (srcLookup [("length", "xyz")] "length" = some "xyz" ∧
      atoiOpt "xyz" = none ∧ (ParseParams [("length", "xyz")]).Length = 0) := by
  constructor
  · exact ⟨rfl, (claim_C9_default_vs_unparseable []).1 rfl⟩
  · exact ⟨rfl, by decide,
      (claim_C9_default_vs_unparseable [("length", "xyz")]).2.2.2.2.2 "xyz" rfl (by decide)⟩

/-- Counterexample to claim C9 as stated: the claim predicts that a
present but unparseable `draw` (resp. `length`) falls back to the
default 1 (resp. 10); the code instead produces 0. -/
theorem claim_C9_counterexample :
    (ParseParams [("draw", "abc")]).Draw = 0 ∧
    ¬(ParseParams [("draw", "abc")]).Draw = 1 ∧
    (ParseParams [("length", "abc")]).Length = 0 ∧
    ¬(ParseParams [("length", "abc")]).Length = 10 := by
  decide

/-- Claim C2: if any searchable column name, or any key or value of the
orderable mapping, is invalid, `OfReturn` aborts with a `ValidationError`
carrying an offending name in its `Field`, returns the zero-value
result, and issues no operation at all on the query builder. -/
theorem claim_C2_validation_aborts (src : ParamSource) (total filtered : Int)
    (fetched : List GoStruct) (searchable : List String)
    (orderable : List (String × String)) (opts : Options)
    (h : (∃ col ∈ searchable, isValidColumnName col = false) ∨
         (∃ p ∈ orderable, isValidColumnName p.1 = false ∨ isValidColumnName p.2 = false)) :
    ∃ e : ValidationError,
      OfReturn src total filtered fetched searchable orderable opts =
        (some e, zeroDatatables, []) ∧
      isValidColumnName e.Field = false ∧
      (e.Field ∈ searchable ∨ e.Field ∈ orderable.map Prod.fst ∨
        e.Field ∈ orderable.map Prod.snd) := by
  cases hs : validateSearchableColumns searchable with
  | some e =>
    obtain ⟨hmem, hfalse⟩ := validateSearchableColumns_eq_some _ _ hs
    exact ⟨e, ofReturn_search_err src total filtered fetched searchable orderable opts e hs,
      hfalse, Or.inl hmem⟩
  | none =>
    have hall := (validateSearchableColumns_eq_none searchable).mp hs
    cases ho : validateOrderableColumns orderable with
    | some e =>
      obtain ⟨hmem, hfalse⟩ := validateOrderableColumns_eq_some _ _ ho
      refine ⟨e, ofReturn_order_err src total filtered fetched searchable orderable opts e hs ho,
        hfalse, ?_⟩
      rcases hmem with hm | hm
      · exact Or.inr (Or.inl hm)
      · exact Or.inr (Or.inr hm)
    | none =>
      exfalso
      have hallo := (validateOrderableColumns_eq_none orderable).mp ho
      rcases h with ⟨col, hmem, hbad⟩ | ⟨p, hmem, hbad⟩
      · have := hall col hmem
        simp [this] at hbad
      · rcases hbad with hb | hb
        · have := (hallo p hmem).1
          simp [this] at hb
        · have := (hallo p hmem).2
          simp [this] at hb

theorem claim_C2_witness :
    (∃ col ∈ ["user name"], isValidColumnName col = false) ∧
    ∃ e : ValidationError,
      OfReturn [] 0 0 [] ["user name"] [("k", "v")] NewOptions =
        (some e, zeroDatatables, []) ∧
      isValidColumnName e.Field = false ∧
      (e.Field ∈ ["user name"] ∨ e.Field ∈ [("k", "v")].map Prod.fst ∨
        e.Field ∈ [("k", "v")].map Prod.snd) :=
  ⟨by decide,
   claim_C2_validation_aborts [] 0 0 [] ["user name"] [("k", "v")] NewOptions
     (Or.inl (by decide))⟩

/-- Claim C3: the search filter appears in the issued operations iff the
parsed search value is non-empty and the searchable list is non-empty;
when present it is the where/or disjunction over all searchable columns
of `LOWER(col) LIKE LOWER(?)`, whose clause text depends only on the
column identifiers (never on the search text), with the search text
passed exclusively as the bound parameter `%search%`. -/
theorem claim_C3_search_filter (src : ParamSource) (total filtered : Int)
    (fetched : List GoStruct) (searchable : List String)
    (orderable : List (String × String)) (opts : Options)
    (hs : validateSearchableColumns searchable = none)
    (ho : validateOrderableColumns orderable = none) :
    (((OfReturn src total filtered fetched searchable orderable opts).2.2).filter isSearchOp =
       if (ParseParams src).Search ≠ "" ∧ searchable ≠ [] then
         applySearch searchable (ParseParams src).Search
       else []) ∧
    (∀ w : String,
       (applySearch searchable (ParseParams src).Search).map clauseText =
         (applySearch searchable w).map clauseText) ∧
    (∀ op ∈ applySearch searchable (ParseParams src).Search,
       boundParam op = some ("%" ++ (ParseParams src).Search ++ "%")) ∧
    (searchable = [] → applySearch searchable (ParseParams src).Search = []) ∧
    (∀ (c : String) (rest : List String), searchable = c :: rest →
       applySearch searchable (ParseParams src).Search =
         QueryOp.whereClause ("LOWER(" ++ c ++ ") LIKE LOWER(?)")
             ("%" ++ (ParseParams src).Search ++ "%")
           :: rest.map (fun c =>
             QueryOp.orClause ("LOWER(" ++ c ++ ") LIKE LOWER(?)")
               ("%" ++ (ParseParams src).Search ++ "%"))) := by
  refine ⟨ofReturn_filter_search src total filtered fetched searchable orderable opts hs ho,
    ?_, ?_, ?_, ?_⟩
  · intro w
    simp only [applySearch]
    rw [applySearchGo_map_clauseText, applySearchGo_map_clauseText]
  · intro op hop
    exact applySearchGo_boundParam (ParseParams src).Search searchable 0 op hop
  · intro hnil
    subst hnil
    rfl
  · intro c rest hcons
    subst hcons
    exact applySearch_eq (c :: rest) (ParseParams src).Search

theorem claim_C3_witness :
    validateSearchableColumns ["name", "email"] = none ∧
    validateOrderableColumns ([] : List (String × String)) = none ∧
    ((OfReturn [("search[value]", "bob")] 0 0 [] ["name", "email"] []
        NewOptions).2.2).filter isSearchOp =
      [QueryOp.whereClause "LOWER(name) LIKE LOWER(?)" "%bob%",
       QueryOp.orClause "LOWER(email) LIKE LOWER(?)" "%bob%"] ∧
    ((OfReturn [] 0 0 [] ["name", "email"] [] NewOptions).2.2).filter isSearchOp = [] := by
  refine ⟨by decide, by decide, ?_, ?_⟩
  · have h := claim_C3_search_filter [("search[value]", "bob")] 0 0 []
      ["name", "email"] [] NewOptions (by decide) (by decide)
    rw [h.1]
    decide
  · have h := claim_C3_search_filter [] 0 0 [] ["name", "email"] [] NewOptions
      (by decide) (by decide)
    rw [h.1]
    decide

/-- Claim C5: a parsed length greater than 500 (necessarily distinct
from −1) is capped to exactly 500 before pagination, a parsed length of
exactly −1 yields neither offset nor limit, and a positive parsed
length yields exactly the offset/limit pair. -/
theorem claim_C5_length_cap (src : ParamSource) (total filtered : Int)
    (fetched : List GoStruct) (searchable : List String)
    (orderable : List (String × String)) (opts : Options)
    (hs : validateSearchableColumns searchable = none)
    (ho : validateOrderableColumns orderable = none) :
    (∀ l : Int, atoiOrZero (defaultQuery src "length" "10") = l → 500 < l → l ≠ -1 →
        (ParseParams src).Length = 500) ∧
    ((ParseParams src).Length = -1 →
        ((OfReturn src total filtered fetched searchable orderable opts).2.2).filter
          isPageOp = []) ∧
    (0 < (ParseParams src).Length →
        ((OfReturn src total filtered fetched searchable orderable opts).2.2).filter
          isPageOp =
          [QueryOp.offset (ParseParams src).Start,
           QueryOp.limit (ParseParams src).Length]) := by
  refine ⟨?_, ?_, ?_⟩
  · intro l hl hgt hne
    simp only [ParseParams]
    rw [hl, if_pos ⟨hgt, hne⟩]
  · intro h
    rw [ofReturn_filter_page src total filtered fetched searchable orderable opts hs ho,
      h]
    norm_num
  · intro h
    rw [ofReturn_filter_page src total filtered fetched searchable orderable opts hs ho,
      if_pos h]

theorem claim_C5_witness :
    validateSearchableColumns ["name"] = none ∧
    validateOrderableColumns ([] : List (String × String)) = none ∧
    atoiOrZero (defaultQuery [("length", "10000")] "length" "10") = 10000 ∧
    (ParseParams [("length", "10000")]).Length = 500 ∧
    ((OfReturn [("length", "10000")] 0 0 [] ["name"] [] NewOptions).2.2).filter isPageOp =
      [QueryOp.offset 0, QueryOp.limit 500] ∧
    (ParseParams [("length", "-1")]).Length = -1 ∧
    ((OfReturn [("length", "-1")] 0 0 [] ["name"] [] NewOptions).2.2).filter isPageOp = [] := by
  have h1 := claim_C5_length_cap [("length", "10000")] 0 0 [] ["name"] [] NewOptions
    (by decide) (by decide)
  have h2 := claim_C5_length_cap [("length", "-1")] 0 0 [] ["name"] [] NewOptions
    (by decide) (by decide)
  refine ⟨by decide, by decide, by decide,
    h1.1 10000 (by decide) (by decide) (by decide), ?_, by decide,
    h2.2.1 (by decide)⟩
  have := h1.2.2 (by decide)
  rw [this]
  decide

/-- Claim C10 (implicit): whenever the parsed length is ≤ 0 — the
sentinel −1, but also 0 (e.g. from an unparseable value) and any other
negative value — neither offset nor limit is applied, while the fetch
still happens (so the whole filtered set is fetched and the start
offset is silently ignored). -/
theorem claim_C10_nonpositive_length (src : ParamSource) (total filtered : Int)
    (fetched : List GoStruct) (searchable : List String)
    (orderable : List (String × String)) (opts : Options)
    (hs : validateSearchableColumns searchable = none)
    (ho : validateOrderableColumns orderable = none)
    (hlen : (ParseParams src).Length ≤ 0) :
    ((OfReturn src total filtered fetched searchable orderable opts).2.2).filter
      isPageOp = [] ∧
    QueryOp.find ∈ (OfReturn src total filtered fetched searchable orderable opts).2.2 := by
  constructor
  · rw [ofReturn_filter_page src total filtered fetched searchable orderable opts hs ho,
      if_neg (by omega)]
  · exact ofReturn_find_mem src total filtered fetched searchable orderable opts hs ho

theorem claim_C10_witness :
    (ParseParams [("length", "abc"), ("start", "25")]).Length ≤ 0 ∧
    ((OfReturn [("length", "abc"), ("start", "25")] 0 0 [] ["name"] []
        NewOptions).2.2).filter isPageOp = [] ∧
    QueryOp.find ∈
      (OfReturn [("length", "abc"), ("start", "25")] 0 0 [] ["name"] []
        NewOptions).2.2 := by
  have h := claim_C10_nonpositive_length [("length", "abc"), ("start", "25")] 0 0 []
    ["name"] [] NewOptions (by decide) (by decide) (by decide)
  exact ⟨by decide, h.1, h.2⟩

/-- Claim C6: the transformation pipeline maps nil to nil, preserves row
order and count, transforms each row independently of the others in the
fixed order index → add → edit → remove on a fresh clone; an edit runs
only when its key exists in the (add-augmented) clone, receives the
clone's current value for that key together with the original row (and
with distinct edit keys never another edit's output); a removal deletes
its key when present and is a no-op when absent, so added or edited
columns can be removed. -/
theorem claim_C6_transformation_pipeline (opts : Options) (start : Int)
    (hnd : (opts.EditColumns.map Prod.fst).Nodup) :
    applyOptions none opts start = none ∧
    (∀ rows : List Row,
        applyOptions (some rows) opts start = some (applyOptionsGo opts start 0 rows)) ∧
    (∀ rows : List Row, ∀ i : Nat,
        (applyOptionsGo opts start 0 rows)[i]? =
          (rows[i]?).map (fun row => transformRow opts start i row)) ∧
    (∀ row : Row, ∀ i : Nat,
        transformRow opts start i row =
          applyRemoves opts.RemoveColumns
            (applyEdits opts.EditColumns row
              (applyAdds opts.AddColumns row (applyIndex opts start i row)))) ∧
    (∀ row r : Row, ∀ c : String, ∀ f : GoValue → Row → GoValue,
        (c, f) ∈ opts.EditColumns →
        rowLookup (applyEdits opts.EditColumns row r) c =
          (rowLookup r c).map (fun v => f v row)) ∧
    (∀ row r : Row, ∀ c : String, c ∉ opts.EditColumns.map Prod.fst →
        rowLookup (applyEdits opts.EditColumns row r) c = rowLookup r c) ∧
    (∀ r : Row, ∀ c : String,
        rowLookup (applyRemoves opts.RemoveColumns r) c =
          if c ∈ opts.RemoveColumns then none else rowLookup r c) := by
  refine ⟨rfl, fun rows => rfl, ?_, fun row i => rfl, ?_, ?_, ?_⟩
  · intro rows i
    simpa using applyOptionsGo_getElem opts start rows 0 i
  · intro row r c f hmem
    exact rowLookup_applyEdits_mem opts.EditColumns row c f hnd hmem r
  · intro row r c hc
    exact rowLookup_applyEdits_not_mem opts.EditColumns row c hc r
  · intro r c
    exact rowLookup_applyRemoves opts.RemoveColumns c r

theorem claim_C6_witness :
    applyOptions none
      { IndexColumn := "idx", ResetIndex := true, DefaultOrder := "",
        AddColumns := [("sum", fun _ => GoValue.vint 7)],
        EditColumns := [("name", fun _ _ => GoValue.vstr "edited")],
        RemoveColumns := ["secret"] } 0 = none ∧
    rowLookup
      (applyEdits [("name", fun _ _ => GoValue.vstr "edited")]
        [("name", GoValue.vstr "a")] [("name", GoValue.vstr "a")]) "name" =
      some (GoValue.vstr "edited") ∧
    rowLookup
      (applyEdits [("name", fun _ _ => GoValue.vstr "edited")]
        [("name", GoValue.vstr "a")] [("other", GoValue.vint 3)]) "name" = none ∧
    rowLookup (applyRemoves ["secret"] [("secret", GoValue.vint 1)]) "secret" = none ∧
    rowLookup (applyRemoves ["secret"] [("sum", GoValue.vint 7)]) "sum" =
      some (GoValue.vint 7) := by
  have h := claim_C6_transformation_pipeline
    { IndexColumn := "idx", ResetIndex := true, DefaultOrder := "",
      AddColumns := [("sum", fun _ => GoValue.vint 7)],
      EditColumns := [("name", fun _ _ => GoValue.vstr "edited")],
      RemoveColumns := ["secret"] } 0 (by simp)
  refine ⟨h.1, ?_, ?_, ?_, ?_⟩
  · have he := h.2.2.2.2.1 [("name", GoValue.vstr "a")] [("name", GoValue.vstr "a")]
      "name" (fun _ _ => GoValue.vstr "edited") (List.mem_cons_self _ _)
    rw [he]
    rfl
  · have he := h.2.2.2.2.1 [("name", GoValue.vstr "a")] [("other", GoValue.vint 3)]
      "name" (fun _ _ => GoValue.vstr "edited") (List.mem_cons_self _ _)
    rw [he]
    rfl
  · have hr := h.2.2.2.2.2.2 [("secret", GoValue.vint 1)] "secret"
    rw [hr]
    rfl
  · have hr := h.2.2.2.2.2.2 [("sum", GoValue.vint 7)] "sum"
    rw [hr]
    rfl

/-- Claim C8, as amended: a non-slice input converts to nil; a pointer
to a slice converts element-wise in order; within one struct, each
exported field appears under the portion of its json tag before the
first comma when a tag is present and that portion is non-empty, under
its declared name when no tag is present, and is omitted when its tag is
exactly `-` OR when the portion before the first comma is empty (e.g.
`json:",omitempty"`); unexported fields are always skipped. -/
theorem claim_C8_struct_conversion (rows : List GoStruct) (fields : GoStruct)
    (hname : ∀ f ∈ fields, f.name ≠ "")
    (hnd : (fields.filterMap fieldKeySpec).Nodup) :
    structToMapSlice .scalar = none ∧
    structToMapSlice .ptrScalar = none ∧
    structToMapSlice (.ptrSlice rows) = some (rows.map structToMap) ∧
    structToMap fields =
      fields.filterMap (fun f => (fieldKeySpec f).map (fun k => (k, f.value))) ∧
    (∀ f : StructField, f.jsonTag = "" → getFieldName f = f.name) ∧
    (∀ f : StructField, f.jsonTag = "-" → getFieldName f = "") ∧
    (∀ f : StructField, f.jsonTag ≠ "" → f.jsonTag ≠ "-" →
        getFieldName f = beforeFirstComma f.jsonTag) := by
  refine ⟨rfl, rfl, rfl, structToMap_eq_spec fields hname hnd, ?_, ?_, ?_⟩
  · intro f h
    simp [getFieldName, h]
  · intro f h
    simp [getFieldName, h]
  · intro f h1 h2
    simp [getFieldName, h1, h2]

theorem claim_C8_witness :
    (∀ f ∈ [StructField.mk "ID" "id" true (.vint 1),
            StructField.mk "Secret" "-" true (.vstr "s"),
            StructField.mk "Name" "" true (.vstr "n"),
            StructField.mk "hidden" "x" false (.vint 2),
            StructField.mk "Mail" "mail,omitempty" true (.vstr "m")], f.name ≠ "") ∧
    (([StructField.mk "ID" "id" true (.vint 1),
       StructField.mk "Secret" "-" true (.vstr "s"),
       StructField.mk "Name" "" true (.vstr "n"),
       StructField.mk "hidden" "x" false (.vint 2),
       StructField.mk "Mail" "mail,omitempty" true
         (.vstr "m")].filterMap fieldKeySpec).Nodup) ∧
    structToMap
        [StructField.mk "ID" "id" true (.vint 1),
         StructField.mk "Secret" "-" true (.vstr "s"),
         StructField.mk "Name" "" true (.vstr "n"),
         StructField.mk "hidden" "x" false (.vint 2),
         StructField.mk "Mail" "mail,omitempty" true (.vstr "m")] =
      [("id", .vint 1), ("Name", .vstr "n"), ("mail", .vstr "m")] := by
  have h := claim_C8_struct_conversion []
    [StructField.mk "ID" "id" true (.vint 1),
     StructField.mk "Secret" "-" true (.vstr "s"),
     StructField.mk "Name" "" true (.vstr "n"),
     StructField.mk "hidden" "x" false (.vint 2),
     StructField.mk "Mail" "mail,omitempty" true (.vstr "m")]
    (by decide) (by decide)
  refine ⟨by decide, by decide, ?_⟩
  rw [h.2.2.2.1]
  decide

/-- Counterexample to claim C8 as stated: for the tag `,omitempty` the
portion before the first comma is empty, and the code omits the field
entirely even though the field is exported and its tag is present and
different from `-`; the claim instead demands the field appear under
that (empty) key. -/
theorem claim_C8_counterexample :
    (StructField.mk "Name" ",omitempty" true (.vstr "x")).exported = true ∧
    (StructField.mk "Name" ",omitempty" true (.vstr "x")).jsonTag ≠ "" ∧
    (StructField.mk "Name" ",omitempty" true (.vstr "x")).jsonTag ≠ "-" ∧
    beforeFirstComma ",omitempty" = "" ∧
    structToMap [StructField.mk "Name" ",omitempty" true (.vstr "x")] = [] := by
  decide

end DatatablesGin
